import Mathlib

/-!
# Verification of the mailboxzero similarity engine

A shallow embedding of `internal/similarity/similarity.go` (package
`similarity`) from the mailboxzero repository, together with proofs about
the embedded functions.

Modelling conventions:

* Go strings are modelled as `List Char` (the sequence of Unicode code
  points a `for _, r := range s` loop yields).  Go's `len(s)` — the UTF-8
  byte length — is modelled by `byteLen`, which sums the UTF-8 width of
  each code point.
* Go `float64` arithmetic on similarity scores is modelled by exact
  rational arithmetic over `ℚ`.  Every score in this program is a short
  combination of values drawn from small-denominator rationals, and no
  property decided in this development depends on double rounding.
  A `float64` *threshold* can additionally be NaN; thresholds are
  therefore modelled as `Option ℚ` with `none` standing for NaN, and
  `fge` mirrors Go's `>=` comparison (false whenever NaN is involved).
* The character predicates `unicode.IsLetter`, `unicode.IsDigit`,
  `unicode.IsSpace` and the mapping `strings.ToLower` are modelled
  faithfully on the ASCII and Latin-1 ranges (code points below 0x100);
  code points above 0xFF are classified as non-letters.  All concrete
  inputs in this development stay inside Latin-1.
* A Go map (`Email.BodyValues`) has no specified iteration order; it is
  modelled as the list of its values in one particular iteration order,
  and re-iteration of the same map is modelled by permuting that list.
-/

/- Batteries marks the `Rat` arithmetic operations `@[irreducible]` to keep
`simp` away from their implementations.  Concrete score computations in this
development are settled by `decide`, which needs those operations to unfold;
restore the default reducibility for this file. -/
set_option allowUnsafeReducibility true

attribute [local semireducible] Rat.add Rat.sub Rat.mul Rat.inv Rat.ofScientific

set_option maxRecDepth 8000

namespace MailboxZero

/-! ## Character model (ASCII and Latin-1 fragment of the Go `unicode` package) -/

/-- `unicode.IsSpace` on the Latin-1 range: '\t', '\n', '\v', '\f', '\r',
' ', U+0085 (NEL) and U+00A0 (NBSP). -/
def goIsSpace (c : Char) : Bool :=
  c.toNat = 9 || c.toNat = 10 || c.toNat = 11 || c.toNat = 12 || c.toNat = 13 ||
  c.toNat = 32 || c.toNat = 133 || c.toNat = 160

/-- `unicode.IsDigit` on the Latin-1 range: the ASCII digits. -/
def goIsDigit (c : Char) : Bool :=
  48 ≤ c.toNat && c.toNat ≤ 57

/-- `unicode.IsLetter` on the Latin-1 range: ASCII letters, the Latin-1
letters ª (U+00AA), µ (U+00B5), º (U+00BA) and U+00C0–U+00FF minus the two
operators × (U+00D7) and ÷ (U+00F7).  Code points above 0xFF are outside
the modelled fragment and classified as non-letters. -/
def goIsLetter (c : Char) : Bool :=
  (97 ≤ c.toNat && c.toNat ≤ 122) || (65 ≤ c.toNat && c.toNat ≤ 90) ||
  c.toNat = 170 || c.toNat = 181 || c.toNat = 186 ||
  (192 ≤ c.toNat && c.toNat ≤ 255 && !(c.toNat = 215) && !(c.toNat = 247))

/-- `unicode.ToLower` (as used by `strings.ToLower`) on the Latin-1 range:
'A'–'Z' and À–Þ (except ×) map 0x20 upwards; everything else is fixed. -/
def goToLowerChar (c : Char) : Char :=
  if 65 ≤ c.toNat && c.toNat ≤ 90 then Char.ofNat (c.toNat + 32)
  else if 192 ≤ c.toNat && c.toNat ≤ 222 && !(c.toNat = 215) then Char.ofNat (c.toNat + 32)
  else c

/-- The UTF-8 byte width of one code point. -/
def goUtf8Size (c : Char) : ℕ :=
  if c.toNat < 128 then 1
  else if c.toNat < 2048 then 2
  else if c.toNat < 65536 then 3
  else 4

/-- Go's `len` on a string: its UTF-8 byte length. -/
def byteLen (s : List Char) : ℕ :=
  (s.map goUtf8Size).sum

/-! ## `normalizeString` -/

/-- `strings.TrimSpace`: drop `unicode.IsSpace` code points from both ends. -/
def goTrimSpace (s : List Char) : List Char :=
  ((s.dropWhile goIsSpace).reverse.dropWhile goIsSpace).reverse

/-- `normalizeString` from similarity.go: lower-case, replace every code
point that is not a letter, digit or whitespace by a single space, then
trim leading and trailing whitespace. -/
def normalizeString (s : List Char) : List Char :=
  let lowered := s.map goToLowerChar
  let replaced := lowered.map fun c =>
    if goIsLetter c || goIsDigit c || goIsSpace c then c else ' '
  goTrimSpace replaced

/-! ## `strings.Fields` and `containsCommonWords` -/

/-- Accumulator pass behind `goFields`: `acc` holds the reversed current word. -/
def goFieldsAux : List Char → List Char → List (List Char)
  | [], acc => if acc.isEmpty then [] else [acc.reverse]
  | c :: rest, acc =>
    if goIsSpace c then
      if acc.isEmpty then goFieldsAux rest []
      else acc.reverse :: goFieldsAux rest []
    else goFieldsAux rest (c :: acc)

/-- `strings.Fields`: split around maximal runs of `unicode.IsSpace`. -/
def goFields (s : List Char) : List (List Char) :=
  goFieldsAux s []

/-- `containsCommonWords` from similarity.go: count the words of `s1` that
are at least 3 bytes long and occur among the words of `s2` (each word of
`s1` counted with multiplicity, the inner loop breaking at the first
match), and test whether at least two such words exist. -/
def containsCommonWords (s1 s2 : List Char) : Bool :=
  let words1 := goFields s1
  let words2 := goFields s2
  let commonWords := words1.countP fun w => !(byteLen w < 3) && decide (w ∈ words2)
  decide (2 ≤ commonWords)

/-! ## `levenshteinDistance` (the single-column dynamic program) -/

/-- Go's three-argument `min` helper from similarity.go. -/
def goMin3 (a b c : ℕ) : ℕ :=
  if a < b then (if a < c then a else c)
  else (if b < c then b else c)

/-- Go's two-argument `max` helper from similarity.go. -/
def goMax2 (a b : ℕ) : ℕ :=
  if a > b then a else b

/-- One sweep of the inner loop of `levenshteinDistance`: walking down the
column.  `rs` is the remaining suffix of `r1`, `ch` the current code point
of `r2`, `lastkey` the entry of the previous column one row up, `prev` the
remaining entries of the previous column, and `cur` the entry of the new
column one row up. -/
def nextColAux : List Char → Char → ℕ → List ℕ → ℕ → List ℕ
  | [], _, _, _, _ => []
  | _ :: _, _, _, [], _ => []
  | a :: rs, ch, lastkey, p :: prev, cur =>
    let v := goMin3 (p + 1) (cur + 1) (lastkey + (if a = ch then 0 else 1))
    v :: nextColAux rs ch p prev v

/-- The outer loop of `levenshteinDistance`: one iteration per code point
of `r2`, carrying the 1-based index `x` and the current column. -/
def levLoop (r1 : List Char) : List Char → ℕ → List ℕ → List ℕ
  | [], _, col => col
  | ch :: rest, x, col =>
    levLoop r1 rest (x + 1) (x :: nextColAux r1 ch (col.headD 0) col.tail x)

/-- `levenshteinDistance` from similarity.go: the single-column
Wagner–Fischer dynamic program over the code points of the two strings. -/
def levenshteinDistance (s1 s2 : List Char) : ℕ :=
  (levLoop s1 s2 1 (List.range (s1.length + 1))).getD s1.length 0

/-! ## The classic Levenshtein distance (specification) -/

/-- The textbook Levenshtein distance over code points: insertion,
deletion and substitution each cost 1. -/
def specLev : List Char → List Char → ℕ
  | [], ys => ys.length
  | x :: xs, [] => (x :: xs).length
  | x :: xs, y :: ys =>
    min (specLev xs (y :: ys) + 1)
      (min (specLev (x :: xs) ys + 1)
        (specLev xs ys + (if x = y then 0 else 1)))
termination_by xs ys => xs.length + ys.length
decreasing_by all_goals simp_arith

/-! ## `stringSimilarity` -/

/-- `stringSimilarity` from similarity.go.  Both inputs are normalized;
equal normalizations score 1, an empty side scores 0, otherwise the score
is `1 - d / maxLen` (with `maxLen` the larger of the two *byte* lengths,
as computed by Go's `len`), plus a flat 0.1 bonus when
`containsCommonWords` holds, clamped at a maximum of 1. -/
def stringSimilarity (s1 s2 : List Char) : ℚ :=
  let n1 := normalizeString s1
  let n2 := normalizeString s2
  if n1 = n2 then 1
  else if n1 = [] || n2 = [] then 0
  else
    let distance := levenshteinDistance n1 n2
    let maxLen := goMax2 (byteLen n1) (byteLen n2)
    if maxLen = 0 then 1
    else
      let similarity : ℚ := 1 - (distance : ℚ) / (maxLen : ℚ)
      let similarity :=
        if containsCommonWords n1 n2 then similarity + 1 / 10 else similarity
      if similarity > 1 then 1 else similarity

/-! ## The record model (the fields of `jmap.Email` the engine reads) -/

/-- The `jmap.EmailAddress` fields the engine reads (only `.Email`). -/
structure EmailAddress where
  Email : List Char
  deriving DecidableEq, Repr

/-- The fields of `jmap.Email` read by the similarity engine: `ID`,
`Subject`, `From`, `Preview` and `BodyValues`.  `bodyValues` is the list
of the `.Value` strings of the `BodyValues` map in one particular
iteration order; re-iterating the same map corresponds to permuting this
list. -/
structure Email where
  ID : String
  Subject : List Char
  From : List EmailAddress
  Preview : List Char
  BodyValues : List (List Char)
  deriving DecidableEq, Repr

instance : Inhabited Email := ⟨⟨"", [], [], [], []⟩⟩

/-- `extractEmailBody` from similarity.go: the preview if non-empty,
otherwise the first non-empty body value (in iteration order),
normalized; otherwise the empty string. -/
def extractEmailBody (e : Email) : List Char :=
  if e.Preview ≠ [] then e.Preview
  else
    match e.BodyValues.find? fun v => !v.isEmpty with
    | some v => normalizeString v
    | none => []

/-- `calculateEmailSimilarity` from similarity.go: the 0.4/0.4/0.2
weighted sum of the subject, sender and body sub-scores.  The sender term
compares the first `From` address and is 0 when either record has none;
the body term compares the extracted bodies and is 0 when either is
empty. -/
def calculateEmailSimilarity (e1 e2 : Email) : ℚ :=
  let subjectSim := stringSimilarity e1.Subject e2.Subject
  let senderSim : ℚ :=
    match e1.From, e2.From with
    | f1 :: _, f2 :: _ => stringSimilarity f1.Email f2.Email
    | _, _ => 0
  let body1 := extractEmailBody e1
  let body2 := extractEmailBody e2
  let bodySim : ℚ :=
    if body1 ≠ [] && body2 ≠ [] then stringSimilarity body1 body2 else 0
  subjectSim * (2/5) + senderSim * (2/5) + bodySim * (1/5)

/-! ## Thresholds (float64 values that may be NaN) -/

/-- A Go `float64` threshold: `none` models NaN. -/
abbrev GoFloat := Option ℚ

/-- Go's `>=` on float64 with a rational left operand: false whenever the
right operand is NaN. -/
def fge (x : ℚ) : GoFloat → Bool
  | some t => decide (t ≤ x)
  | none => false

/-! ## `calculateGroupSimilarity` and `groupSimilarEmails` -/

/-- The scores of all unordered pairs of a list, in the nested-loop order
of `calculateGroupSimilarity`. -/
def pairSims : List Email → List ℚ
  | [] => []
  | e :: rest => rest.map (calculateEmailSimilarity e) ++ pairSims rest

/-- `calculateGroupSimilarity` from similarity.go: the mean of all
pairwise scores of the group, 0 for groups of size at most 1. -/
def calculateGroupSimilarity (emails : List Email) : ℚ :=
  if emails.length ≤ 1 then 0
  else
    let sims := pairSims emails
    if sims.length = 0 then 0
    else sims.sum / (sims.length : ℚ)

/-- An `EmailGroup` from similarity.go. -/
structure EmailGroup where
  Emails : List Email
  Similarity : ℚ
  deriving DecidableEq, Repr

instance : Inhabited EmailGroup := ⟨⟨[], 0⟩⟩

/-- The inner loop of `groupSimilarEmails`: scan the records after the
anchor, adding each unprocessed one whose score with the anchor meets the
threshold and marking it processed.  Returns the added members (in scan
order) and the updated processed set. -/
def innerScan (anchor : Email) (threshold : GoFloat) :
    List Email → List String → List Email × List String
  | [], processed => ([], processed)
  | c :: rest, processed =>
    if c.ID ∈ processed then innerScan anchor threshold rest processed
    else if fge (calculateEmailSimilarity anchor c) threshold then
      let (ms, p') := innerScan anchor threshold rest (c.ID :: processed)
      (c :: ms, p')
    else innerScan anchor threshold rest processed

/-- The outer loop of `groupSimilarEmails`: each unprocessed record
anchors a new group, the records after it are scanned by `innerScan`, and
the group is kept only if it has more than one member. -/
def groupLoop (threshold : GoFloat) :
    List Email → List String → List EmailGroup
  | [], _ => []
  | e :: rest, processed =>
    if e.ID ∈ processed then groupLoop threshold rest processed
    else
      let (ms, p') := innerScan e threshold rest (e.ID :: processed)
      let group := e :: ms
      if 1 < group.length then
        ⟨group, calculateGroupSimilarity group⟩ :: groupLoop threshold rest p'
      else groupLoop threshold rest p'

/-- `groupSimilarEmails` from similarity.go: greedy single-link grouping
anchored at the first unprocessed record, in input order. -/
def groupSimilarEmails (emails : List Email) (threshold : GoFloat) : List EmailGroup :=
  groupLoop threshold emails []

/-! ## `FindSimilarToEmail` -/

/-- The scan loop of `FindSimilarToEmail`: keep every record other than
the target (by identifier) whose score with the target meets the
threshold, in input order. -/
def findSimilarLoop (target : Email) (threshold : GoFloat) : List Email → List Email
  | [] => []
  | c :: rest =>
    if c.ID = target.ID then findSimilarLoop target threshold rest
    else if fge (calculateEmailSimilarity target c) threshold then
      c :: findSimilarLoop target threshold rest
    else findSimilarLoop target threshold rest

/-- `FindSimilarToEmail` from similarity.go: the target itself first,
then every other record meeting the threshold, in input order. -/
def FindSimilarToEmail (targetEmail : Email) (emails : List Email)
    (threshold : GoFloat) : List Email :=
  targetEmail :: findSimilarLoop targetEmail threshold emails

/-! ## Go's `sort.Slice` (the pdqsort of Go 1.19+, `sort/zsortfunc.go`)

`FindSimilarEmails` sorts the group list with `sort.Slice`, which is
documented as *not* stable.  To settle what `groups[0]` is after the
sort, the whole pdqsort implementation is embedded here, one Lean
definition per Go function, with explicit fuel for the loops (the fuel
bounds are generous; every loop of the Go code terminates on strictly
shrinking ranges). -/

variable {α : Type} [Inhabited α]

/-- Read a slice element (indices in the algorithms below are always in
bounds; out-of-bounds reads return the default value). -/
def aget (arr : Array α) (i : ℕ) : α :=
  arr.getD i default

/-- `data.Swap(i, j)`. -/
def aswap (arr : Array α) (i j : ℕ) : Array α :=
  if h1 : i < arr.size then
    if h2 : j < arr.size then arr.swap ⟨i, h1⟩ ⟨j, h2⟩ else arr
  else arr

/-- The inner loop of `insertionSort_func`: shift the element at `j` down
while it is less than its left neighbour and `j > a`. -/
def insInner (lt : α → α → Bool) (a : ℕ) : ℕ → Array α → Array α
  | 0, arr => arr
  | j + 1, arr =>
    if a < j + 1 && lt (aget arr (j + 1)) (aget arr j) then
      insInner lt a j (aswap arr (j + 1) j)
    else arr

/-- The outer loop of `insertionSort_func`, `i` from `a+1` to `b-1`. -/
def insOuter (lt : α → α → Bool) (a b : ℕ) : ℕ → ℕ → Array α → Array α
  | _, 0, arr => arr
  | i, fuel + 1, arr =>
    if i < b then insOuter lt a b (i + 1) fuel (insInner lt a i arr)
    else arr

/-- `insertionSort_func(data, a, b)`. -/
def insertionSortGo (lt : α → α → Bool) (arr : Array α) (a b : ℕ) : Array α :=
  insOuter lt a b (a + 1) b arr

/-- The loop of `siftDown_func`. -/
def siftLoop (lt : α → α → Bool) (first hi : ℕ) : ℕ → ℕ → Array α → Array α
  | _, 0, arr => arr
  | root, fuel + 1, arr =>
    let child := 2 * root + 1
    if hi ≤ child then arr
    else
      let child :=
        if child + 1 < hi && lt (aget arr (first + child)) (aget arr (first + child + 1)) then
          child + 1
        else child
      if !lt (aget arr (first + root)) (aget arr (first + child)) then arr
      else siftLoop lt first hi child fuel (aswap arr (first + root) (first + child))

/-- `siftDown_func(data, lo, hi, first)`. -/
def siftDownGo (lt : α → α → Bool) (arr : Array α) (lo hi first : ℕ) : Array α :=
  siftLoop lt first hi lo (hi + 1) arr

/-- The heap-construction loop of `heapSort_func` (`i` counts down from
`(hi-1)/2`; the argument is the number of remaining iterations). -/
def heapBuild (lt : α → α → Bool) (hi first : ℕ) : ℕ → Array α → Array α
  | 0, arr => arr
  | k + 1, arr => heapBuild lt hi first k (siftDownGo lt arr k hi first)

/-- The pop loop of `heapSort_func` (`i` counts down from `hi-1`). -/
def heapPop (lt : α → α → Bool) (first : ℕ) : ℕ → Array α → Array α
  | 0, arr => arr
  | k + 1, arr => heapPop lt first k (siftDownGo lt (aswap arr first (first + k)) 0 k first)

/-- `heapSort_func(data, a, b)`. -/
def heapSortGo (lt : α → α → Bool) (arr : Array α) (a b : ℕ) : Array α :=
  let first := a
  let hi := b - a
  heapPop lt first hi (heapBuild lt hi first ((hi - 1) / 2 + 1) arr)

/-- The loop of `reverseRange_func`. -/
def revLoop : ℕ → ℕ → ℕ → Array α → Array α
  | _, _, 0, arr => arr
  | i, j, fuel + 1, arr =>
    if i < j then revLoop (i + 1) (j - 1) fuel (aswap arr i j) else arr

/-- `reverseRange_func(data, a, b)`. -/
def reverseRangeGo (arr : Array α) (a b : ℕ) : Array α :=
  revLoop a (b - 1) b arr

/-- The hint returned by `choosePivot_func`. -/
inductive SortHint
  | unknown
  | increasing
  | decreasing
  deriving DecidableEq, Repr

/-- `order2_func(data, a, b, &swaps)`: order two indices, counting swaps. -/
def order2Go (lt : α → α → Bool) (arr : Array α) (a b swaps : ℕ) : ℕ × ℕ × ℕ :=
  if lt (aget arr b) (aget arr a) then (b, a, swaps + 1) else (a, b, swaps)

/-- `median_func(data, a, b, c, &swaps)`. -/
def medianGo (lt : α → α → Bool) (arr : Array α) (a b c swaps : ℕ) : ℕ × ℕ :=
  let r1 := order2Go lt arr a b swaps
  let r2 := order2Go lt arr r1.2.1 c r1.2.2
  let r3 := order2Go lt arr r1.1 r2.1 r2.2.2
  (r3.2.1, r3.2.2)

/-- `medianAdjacent_func(data, a, &swaps)`. -/
def medianAdjacentGo (lt : α → α → Bool) (arr : Array α) (a swaps : ℕ) : ℕ × ℕ :=
  medianGo lt arr (a - 1) a (a + 1) swaps

/-- `choosePivot_func(data, a, b)`: static pivot below 8 elements,
median-of-three below 50, Tukey ninther from 50 on; the swap counter
yields the sortedness hint. -/
def choosePivotGo (lt : α → α → Bool) (arr : Array α) (a b : ℕ) : ℕ × SortHint :=
  let l := b - a
  let i := a + l / 4 * 1
  let j := a + l / 4 * 2
  let k := a + l / 4 * 3
  if 8 ≤ l then
    let (i', j', k', swaps0) :=
      if 50 ≤ l then
        let m1 := medianAdjacentGo lt arr i 0
        let m2 := medianAdjacentGo lt arr j m1.2
        let m3 := medianAdjacentGo lt arr k m2.2
        (m1.1, m2.1, m3.1, m3.2)
      else (i, j, k, 0)
    let (j2, swaps) := medianGo lt arr i' j' k' swaps0
    if swaps = 0 then (j2, SortHint.increasing)
    else if swaps = 12 then (j2, SortHint.decreasing)
    else (j2, SortHint.unknown)
  else (j, SortHint.increasing)

/-- The scan of `partialInsertionSort_func`: advance `i` while the
adjacent pair at `i` is in order; returns the final `i`. -/
def scanSorted (lt : α → α → Bool) (arr : Array α) (b : ℕ) : ℕ → ℕ → ℕ
  | i, 0 => i
  | i, fuel + 1 =>
    if i < b && !lt (aget arr i) (aget arr (i - 1)) then
      scanSorted lt arr b (i + 1) fuel
    else i

/-- The leftward shifting loop of `partialInsertionSort_func`
(`for j := i-1; j >= 1; j--`). -/
def shiftLeftLoop (lt : α → α → Bool) : ℕ → ℕ → Array α → Array α
  | _, 0, arr => arr
  | j, fuel + 1, arr =>
    if 1 ≤ j then
      if !lt (aget arr j) (aget arr (j - 1)) then arr
      else shiftLeftLoop lt (j - 1) fuel (aswap arr j (j - 1))
    else arr

/-- The rightward shifting loop of `partialInsertionSort_func`
(`for j := i+1; j < b; j++`). -/
def shiftRightLoop (lt : α → α → Bool) (b : ℕ) : ℕ → ℕ → Array α → Array α
  | _, 0, arr => arr
  | j, fuel + 1, arr =>
    if j < b then
      if !lt (aget arr j) (aget arr (j - 1)) then arr
      else shiftRightLoop lt b (j + 1) fuel (aswap arr j (j - 1))
    else arr

/-- The step loop of `partialInsertionSort_func` (at most 5 adjacent
out-of-order pairs are repaired; on ranges shorter than 50 no element is
shifted and the function reports failure at the first violation). -/
def partialInsLoop (lt : α → α → Bool) (a b : ℕ) : ℕ → ℕ → Array α → Array α × Bool
  | _, 0, arr => (arr, false)
  | i, steps + 1, arr =>
    let i' := scanSorted lt arr b i (b + 1)
    if i' = b then (arr, true)
    else if b - a < 50 then (arr, false)
    else
      let arr1 := aswap arr i' (i' - 1)
      let arr2 := if 2 ≤ i' - a then shiftLeftLoop lt (i' - 1) i' arr1 else arr1
      let arr3 := if 2 ≤ b - i' then shiftRightLoop lt b (i' + 1) b arr2 else arr2
      partialInsLoop lt a b i' steps arr3

/-- `partialInsertionSort_func(data, a, b)`. -/
def partialInsertionSortGo (lt : α → α → Bool) (arr : Array α) (a b : ℕ) :
    Array α × Bool :=
  partialInsLoop lt a b (a + 1) 5 arr

/-- The upward scan of `partition_func`: `for i <= j && Less(i, a)`. -/
def partUp (lt : α → α → Bool) (arr : Array α) (a : ℕ) : ℕ → ℕ → ℕ → ℕ
  | i, _, 0 => i
  | i, j, fuel + 1 =>
    if i ≤ j && lt (aget arr i) (aget arr a) then partUp lt arr a (i + 1) j fuel
    else i

/-- The downward scan of `partition_func`: `for i <= j && !Less(j, a)`. -/
def partDown (lt : α → α → Bool) (arr : Array α) (a : ℕ) : ℕ → ℕ → ℕ → ℕ
  | _, j, 0 => j
  | i, j, fuel + 1 =>
    if i ≤ j && !lt (aget arr j) (aget arr a) then partDown lt arr a i (j - 1) fuel
    else j

/-- The main loop of `partition_func` after the first crossing swap. -/
def partMainLoop (lt : α → α → Bool) (a : ℕ) : ℕ → ℕ → ℕ → Array α → Array α × ℕ
  | _, j, 0, arr => (arr, j)
  | i, j, fuel + 1, arr =>
    let i' := partUp lt arr a i j (j + 2)
    let j' := partDown lt arr a i' j (j + 2)
    if j' < i' then (arr, j')
    else partMainLoop lt a (i' + 1) (j' - 1) fuel (aswap arr i' j')

/-- `partition_func(data, a, b, pivot)`: returns the array, the new pivot
position and whether the range was already partitioned. -/
def partitionGo (lt : α → α → Bool) (arr : Array α) (a b pivot : ℕ) :
    Array α × ℕ × Bool :=
  let arr := aswap arr a pivot
  let i1 := partUp lt arr a (a + 1) (b - 1) (b + 2)
  let j1 := partDown lt arr a i1 (b - 1) (b + 2)
  if j1 < i1 then (aswap arr j1 a, j1, true)
  else
    let arr1 := aswap arr i1 j1
    let (arr2, jf) := partMainLoop lt a (i1 + 1) (j1 - 1) (b + 2) arr1
    (aswap arr2 jf a, jf, false)

/-- The upward scan of `partitionEqual_func`: `for i <= j && !Less(a, i)`. -/
def peqUp (lt : α → α → Bool) (arr : Array α) (a : ℕ) : ℕ → ℕ → ℕ → ℕ
  | i, _, 0 => i
  | i, j, fuel + 1 =>
    if i ≤ j && !lt (aget arr a) (aget arr i) then peqUp lt arr a (i + 1) j fuel
    else i

/-- The downward scan of `partitionEqual_func`: `for i <= j && Less(a, j)`. -/
def peqDown (lt : α → α → Bool) (arr : Array α) (a : ℕ) : ℕ → ℕ → ℕ → ℕ
  | _, j, 0 => j
  | i, j, fuel + 1 =>
    if i ≤ j && lt (aget arr a) (aget arr j) then peqDown lt arr a i (j - 1) fuel
    else j

/-- The loop of `partitionEqual_func`. -/
def peqLoop (lt : α → α → Bool) (a : ℕ) : ℕ → ℕ → ℕ → Array α → Array α × ℕ
  | i, _, 0, arr => (arr, i)
  | i, j, fuel + 1, arr =>
    let i' := peqUp lt arr a i j (j + 2)
    let j' := peqDown lt arr a i' j (j + 2)
    if j' < i' then (arr, i')
    else peqLoop lt a (i' + 1) (j' - 1) fuel (aswap arr i' j')

/-- `partitionEqual_func(data, a, b, pivot)`: returns the array and the
first index of the strictly-greater suffix. -/
def partitionEqualGo (lt : α → α → Bool) (arr : Array α) (a b pivot : ℕ) :
    Array α × ℕ :=
  let arr := aswap arr a pivot
  peqLoop lt a (a + 1) (b - 1) (b + 2) arr

/-- One step of the `xorshift` generator of the sort package
(`v ^= v<<13; v ^= v>>7; v ^= v<<17` on `uint64`). -/
def xorshiftNext (v : ℕ) : ℕ :=
  let m := 2 ^ 64
  let v1 := (v ^^^ (v <<< 13)) % m
  let v2 := (v1 ^^^ (v1 >>> 7)) % m
  (v2 ^^^ (v2 <<< 17)) % m

/-- `bits.Len` on a non-negative word. -/
def goBitsLen (n : ℕ) : ℕ :=
  if n = 0 then 0 else Nat.log2 n + 1

/-- `nextPowerOfTwo` from the sort package: `1 << bits.Len(uint(length))`. -/
def nextPowerOfTwo (length : ℕ) : ℕ :=
  2 ^ goBitsLen length

/-- `breakPatterns_func(data, a, b)`: on ranges of at least 8 elements,
swap three middle elements with pseudo-random partners drawn from the
`xorshift` generator seeded with the range length. -/
def breakPatternsGo (arr : Array α) (a b : ℕ) : Array α :=
  let length := b - a
  if 8 ≤ length then
    let modulus := nextPowerOfTwo length
    let idx := a + (length / 4) * 2 - 1
    let f := fun (st : ℕ × Array α) (i : ℕ) =>
      let rnd := xorshiftNext st.1
      let other := rnd % modulus
      let other := if length ≤ other then other - length else other
      (rnd, aswap st.2 (idx - 1 + i) (a + other))
    (List.foldl f (length, arr) [0, 1, 2]).2
  else arr

/-- `pdqsort_func(data, a, b, limit)`.  The Go `for` loop and the
recursive call on the shorter side are both modelled by recursion on
`fuel`; every continuation operates on a strictly shorter range, so any
fuel of at least `b - a + 1` is enough. -/
def pdqsortLoop (lt : α → α → Bool) :
    ℕ → Array α → ℕ → ℕ → ℕ → Bool → Bool → Array α
  | 0, arr, _, _, _, _, _ => arr
  | fuel + 1, arr, a, b, limit, wasBalanced, wasPartitioned =>
    let length := b - a
    if length ≤ 12 then insertionSortGo lt arr a b
    else if limit = 0 then heapSortGo lt arr a b
    else
      let (arr, limit) :=
        if !wasBalanced then (breakPatternsGo arr a b, limit - 1) else (arr, limit)
      let (pivot, hint) := choosePivotGo lt arr a b
      let (arr, pivot, hint) :=
        if hint = SortHint.decreasing then
          (reverseRangeGo arr a b, (b - 1) - (pivot - a), SortHint.increasing)
        else (arr, pivot, hint)
      let (arr, sorted) :=
        if wasBalanced && wasPartitioned && decide (hint = SortHint.increasing) then
          partialInsertionSortGo lt arr a b
        else (arr, false)
      if sorted then arr
      else if 0 < a && !lt (aget arr (a - 1)) (aget arr pivot) then
        let (arr, mid) := partitionEqualGo lt arr a b pivot
        pdqsortLoop lt fuel arr mid b limit wasBalanced wasPartitioned
      else
        let (arr, mid, alreadyPartitioned) := partitionGo lt arr a b pivot
        let wasPartitioned := alreadyPartitioned
        let leftLen := mid - a
        let rightLen := b - mid
        let balanceThreshold := length / 8
        let wasBalanced := decide (balanceThreshold ≤ Nat.min leftLen rightLen)
        if leftLen < rightLen then
          let arr := pdqsortLoop lt fuel arr a mid limit true true
          pdqsortLoop lt fuel arr (mid + 1) b limit wasBalanced wasPartitioned
        else
          let arr := pdqsortLoop lt fuel arr (mid + 1) b limit true true
          pdqsortLoop lt fuel arr a mid limit wasBalanced wasPartitioned

/-- `sort.Slice(x, less)`: pdqsort over the whole slice with depth limit
`bits.Len(len(x))`. -/
def sortSliceGo (lt : α → α → Bool) (arr : Array α) : Array α :=
  pdqsortLoop lt (arr.size + 1) arr 0 arr.size (goBitsLen arr.size) true true

/-! ## `FindSimilarEmails` -/

/-- `FindSimilarEmails` from similarity.go: group, sort the groups by
descending member count with `sort.Slice`, and return the emails of the
first group; empty input or no groups yield the empty result. -/
def FindSimilarEmails (emails : List Email) (threshold : GoFloat) : List Email :=
  if emails.length = 0 then []
  else
    let groups := groupSimilarEmails emails threshold
    if groups.length = 0 then []
    else
      let sorted :=
        sortSliceGo (fun g1 g2 => g2.Emails.length < g1.Emails.length) groups.toArray
      (aget sorted 0).Emails

/-! ## Concrete records used in counterexamples and witnesses -/

/-- A record with a one-code-point subject and sender and no body. -/
def tinyEmail (id : String) (s : String) : Email :=
  ⟨id, s.toList, [⟨s.toList⟩], [], []⟩

/-- A record with subject, sender and preview strings. -/
def fullEmail (id subj sender prev : String) : Email :=
  ⟨id, subj.toList, [⟨sender.toList⟩], prev.toList, []⟩

/-- A record whose subject repeats the token `aaa`; paired with
`dupTokenB` it fires the common-word bonus in one direction only. -/
def dupTokenA : Email := ⟨"1", "aaa aaa".toList, [], [], []⟩

/-- A record whose subject is the single token `aaa`. -/
def dupTokenB : Email := ⟨"2", "aaa".toList, [], [], []⟩

/-- A record with non-empty subject and sender but no body: its
self-similarity is 0.8, not 1.0. -/
def bodylessEmail : Email := ⟨"r", "Test".toList, [⟨"t@x".toList⟩], [], []⟩

/-- A record with body, used to witness perfect self-similarity. -/
def bodiedEmail : Email := ⟨"w", "Test".toList, [⟨"t@x".toList⟩], "body".toList, []⟩

/-- A record with empty preview and two distinct non-empty body values
(one map iteration order). -/
def twoBodyEmail : Email :=
  ⟨"x", "sss".toList, [⟨"ss".toList⟩], [], ["aaa".toList, "qqq".toList]⟩

/-- The same map contents as `twoBodyEmail` in the other iteration order. -/
def twoBodyEmailSwapped : Email :=
  ⟨"x", "sss".toList, [⟨"ss".toList⟩], [], ["qqq".toList, "aaa".toList]⟩

/-- A partner record whose body matches one of `twoBodyEmail`'s values. -/
def bodyPartnerEmail : Email := ⟨"y", "sss".toList, [⟨"ss".toList⟩], "aaa".toList, []⟩

/-- A record with empty preview, one non-empty body value and one empty
one: its extraction is independent of iteration order. -/
def permEmail : Email := ⟨"pw", "sss".toList, [], [], ["aaa".toList, []]⟩

/-- The body values of `permEmail` in the other iteration order. -/
def permBV : List (List Char) := [[], "aaa".toList]

/-- Record `a` of the threshold-monotonicity counterexample. -/
def monoA : Email := fullEmail "a" "xxxx" "ss" "pppp"

/-- Record `b` of the threshold-monotonicity counterexample:
`score(a,b) = 4/5`. -/
def monoB : Email := fullEmail "b" "xxxx" "ss" "qqqq"

/-- Record `c` of the threshold-monotonicity counterexample:
`score(c,a) = 7/10`, `score(c,b) = 1/2`. -/
def monoC : Email := fullEmail "c" "xyyy" "ss" "pppp"

/-- A 28-record collection that forms 13 groups of sizes
`[2,3,3,2,2,2,2,2,2,2,2,2,2]` (in formation order) at threshold 1/2:
records sharing a letter score 0.8 with each other and 0 with all
others. -/
def groups13 : List Email :=
  [tinyEmail "a1" "a", tinyEmail "a2" "a",
   tinyEmail "b1" "b", tinyEmail "b2" "b", tinyEmail "b3" "b",
   tinyEmail "c1" "c", tinyEmail "c2" "c", tinyEmail "c3" "c",
   tinyEmail "d1" "d", tinyEmail "d2" "d",
   tinyEmail "e1" "e", tinyEmail "e2" "e",
   tinyEmail "f1" "f", tinyEmail "f2" "f",
   tinyEmail "g1" "g", tinyEmail "g2" "g",
   tinyEmail "h1" "h", tinyEmail "h2" "h",
   tinyEmail "i1" "i", tinyEmail "i2" "i",
   tinyEmail "j1" "j", tinyEmail "j2" "j",
   tinyEmail "k1" "k", tinyEmail "k2" "k",
   tinyEmail "l1" "l", tinyEmail "l2" "l",
   tinyEmail "m1" "m", tinyEmail "m2" "m"]

/-- A 4-record collection forming two groups that tie at size 2. -/
def tiedPair : List Email :=
  [tinyEmail "a1" "a", tinyEmail "a2" "a", tinyEmail "b1" "b", tinyEmail "b2" "b"]

/-- The per-string hypothesis under which the common-word bonus is
symmetric: the tokens of the normalized string that are at least 3 bytes
long are pairwise distinct. -/
abbrev tokensOK (s : List Char) : Prop :=
  ((goFields (normalizeString s)).filter fun w => decide (3 ≤ byteLen w)).Nodup

/-- First record of the symmetry witness: all its compared strings have
pairwise-distinct tokens. -/
def symA : Email :=
  ⟨"s1", "hello world news".toList, [⟨"alpha beta".toList⟩], "first second".toList, []⟩

/-- Second record of the symmetry witness: all its compared strings have
pairwise-distinct tokens. -/
def symB : Email :=
  ⟨"s2", "hello there world".toList, [⟨"beta gamma".toList⟩], "second third".toList, []⟩

/-- The specification column: `specCol s2 u rs` lists the classic
Levenshtein distances from `u ++ (rs.take y)` to `s2` for `y = 1 .. rs.length`.
With `u = []` and `rs = r1` this is the tail of the dynamic-programming
column of `levenshteinDistance` after consuming `s2`. -/
def specCol (s2 : List Char) : List Char → List Char → List ℕ
  | _, [] => []
  | u, r :: rs => specLev (u ++ [r]) s2 :: specCol s2 (u ++ [r]) rs

/-! # Theorems -/

/-! ## The classic Levenshtein distance: basic lemmas -/

lemma specLev_nil_left (ys : List Char) : specLev [] ys = ys.length := by
  simp [specLev]

lemma specLev_nil_right : ∀ xs : List Char, specLev xs [] = xs.length
  | [] => by simp [specLev]
  | _ :: _ => by simp [specLev]

/-- Substitution cost is symmetric. -/
lemma costSymm (a b : Char) : (if a = b then (0 : ℕ) else 1) = if b = a then 0 else 1 := by
  by_cases h : a = b <;> simp [h, Ne.symm, eq_comm]

/-- The first-character unfolding of the classic distance, as a plain
rewriting lemma. -/
lemma specLev_cons_cons (x y : Char) (xs ys : List Char) :
    specLev (x :: xs) (y :: ys) =
      min (specLev xs (y :: ys) + 1)
        (min (specLev (x :: xs) ys + 1)
          (specLev xs ys + (if x = y then 0 else 1))) := by
  simp [specLev]

/-- The last-character recurrence of the classic Levenshtein distance:
the same three-way minimum as the first-character one, taken at the far
ends of the two strings.  This is the recurrence the single-column
dynamic program of `levenshteinDistance` computes with. -/
lemma specLev_append : ∀ (u v : List Char) (a b : Char),
    specLev (u ++ [a]) (v ++ [b]) =
      min (specLev u (v ++ [b]) + 1)
        (min (specLev (u ++ [a]) v + 1)
          (specLev u v + (if a = b then 0 else 1)))
  | [], [], a, b => by simp [specLev]
  | [], w :: v, a, b => by
    have ih := specLev_append [] v a b
    simp only [List.nil_append, List.cons_append] at ih ⊢
    simp only [specLev_cons_cons, specLev_nil_left, List.length_cons,
      List.length_append, List.length_nil] at ih ⊢
    simp only [ih]
    generalize specLev [a] v = A
    generalize (if a = w then (0:ℕ) else 1) = c1
    generalize (if a = b then (0:ℕ) else 1) = c2
    refine le_antisymm ?_ ?_ <;> simp only [le_min_iff, min_le_iff] <;> omega
  | x :: u, [], a, b => by
    have ih := specLev_append u [] a b
    simp only [List.nil_append, List.cons_append] at ih ⊢
    simp only [specLev_cons_cons, specLev_nil_left, specLev_nil_right,
      List.length_cons, List.length_append, List.length_nil] at ih ⊢
    simp only [ih]
    generalize specLev u [b] = B
    generalize (if x = b then (0:ℕ) else 1) = c1
    generalize (if a = b then (0:ℕ) else 1) = c2
    refine le_antisymm ?_ ?_ <;> simp only [le_min_iff, min_le_iff] <;> omega
  | x :: u, w :: v, a, b => by
    have ih1 := specLev_append u (w :: v) a b
    have ih2 := specLev_append (x :: u) v a b
    have ih3 := specLev_append u v a b
    simp only [List.nil_append, List.cons_append] at ih1 ih2 ih3 ⊢
    simp only [specLev_cons_cons, specLev_nil_left, specLev_nil_right,
      List.length_cons, List.length_append, List.length_nil] at ih1 ih2 ih3 ⊢
    simp only [ih1, ih2, ih3]
    generalize specLev u v = B1
    generalize specLev u (v ++ [b]) = B2
    generalize specLev (u ++ [a]) v = B3
    generalize specLev u (w :: v) = B4
    generalize specLev (u ++ [a]) (w :: v) = B5
    generalize specLev u (w :: (v ++ [b])) = B6
    generalize specLev (x :: u) (v ++ [b]) = B7
    generalize specLev (x :: (u ++ [a])) v = B8
    generalize specLev (x :: u) v = B9
    generalize (if x = w then (0:ℕ) else 1) = c1
    generalize (if a = b then (0:ℕ) else 1) = c2
    refine le_antisymm ?_ ?_ <;> simp only [le_min_iff, min_le_iff] <;> omega
termination_by u v _ _ => u.length + v.length
decreasing_by all_goals simp_arith

/-- The classic Levenshtein distance is symmetric. -/
lemma specLev_comm : ∀ xs ys : List Char, specLev xs ys = specLev ys xs
  | [], ys => by simp [specLev, specLev_nil_right]
  | x :: xs, [] => by simp [specLev, specLev_nil_right]
  | x :: xs, y :: ys => by
    have ih1 := specLev_comm xs (y :: ys)
    have ih2 := specLev_comm (x :: xs) ys
    have ih3 := specLev_comm xs ys
    rw [specLev_cons_cons, specLev_cons_cons, ih1, ih2, ih3, costSymm]
    generalize specLev (y :: ys) xs = P
    generalize specLev ys (x :: xs) = Q
    generalize specLev ys xs = R
    generalize (if y = x then (0:ℕ) else 1) = c
    refine le_antisymm ?_ ?_ <;> simp only [le_min_iff, min_le_iff] <;> omega
termination_by xs ys => xs.length + ys.length
decreasing_by all_goals simp_arith

/-- The classic Levenshtein distance between two strings of length at
most `n` is at most `n`. -/
lemma specLev_le : ∀ (xs ys : List Char) (n : ℕ),
    xs.length ≤ n → ys.length ≤ n → specLev xs ys ≤ n
  | [], ys, n, _, h2 => by simpa [specLev_nil_left] using h2
  | _ :: _, [], n, h1, _ => by simpa [specLev_nil_right] using h1
  | x :: xs, y :: ys, n, h1, h2 => by
    obtain ⟨m, rfl⟩ : ∃ m, n = m + 1 := by
      cases n with
      | zero => simp at h1
      | succ m => exact ⟨m, rfl⟩
    have ih := specLev_le xs ys m (by simpa using h1) (by simpa using h2)
    have hc : (if x = y then (0 : ℕ) else 1) ≤ 1 := by split <;> omega
    rw [specLev_cons_cons]
    generalize specLev xs (y :: ys) = P at *
    generalize specLev (x :: xs) ys = Q at *
    generalize hR : specLev xs ys = R at *
    generalize (if x = y then (0:ℕ) else 1) = c at *
    simp only [min_le_iff]
    omega
termination_by xs ys _ _ _ => xs.length + ys.length
decreasing_by all_goals simp_arith

/-! ## The single-column dynamic program computes the classic distance -/

lemma goMin3_eq (a b c : ℕ) : goMin3 a b c = min (min a b) c := by
  unfold goMin3
  split_ifs <;> refine le_antisymm ?_ ?_ <;> simp only [le_min_iff, min_le_iff] <;> omega

lemma goMax2_eq (a b : ℕ) : goMax2 a b = max a b := by
  unfold goMax2
  split_ifs with h
  · exact (Nat.max_eq_left (Nat.le_of_lt h)).symm
  · exact (Nat.max_eq_right (Nat.le_of_not_lt h)).symm

/-- One inner sweep of the dynamic program turns the specification column
for `s2` into the specification column for `s2 ++ [ch]`. -/
lemma nextColAux_spec (ch : Char) (s2 : List Char) :
    ∀ rs u : List Char,
      nextColAux rs ch (specLev u s2) (specCol s2 u rs) (specLev u (s2 ++ [ch])) =
        specCol (s2 ++ [ch]) u rs
  | [], u => by simp [nextColAux, specCol]
  | r :: rs, u => by
    have ih := nextColAux_spec ch s2 rs (u ++ [r])
    have hv : goMin3 (specLev (u ++ [r]) s2 + 1) (specLev u (s2 ++ [ch]) + 1)
        (specLev u s2 + if r = ch then 0 else 1) = specLev (u ++ [r]) (s2 ++ [ch]) := by
      rw [goMin3_eq, specLev_append u s2 r ch]
      generalize specLev (u ++ [r]) s2 = P
      generalize specLev u (s2 ++ [ch]) = Q
      generalize specLev u s2 = R
      generalize (if r = ch then (0:ℕ) else 1) = c
      refine le_antisymm ?_ ?_ <;> simp only [le_min_iff, min_le_iff] <;> omega
    simp only [specCol, nextColAux, hv, ih]

/-- The outer loop invariant: starting from the specification column for
the consumed part of `s2`, the loop ends in the specification column for
all of `s2`. -/
lemma levLoop_spec (r1 : List Char) :
    ∀ rest s2done : List Char,
      levLoop r1 rest (s2done.length + 1)
          (specLev [] s2done :: specCol s2done [] r1) =
        specLev [] (s2done ++ rest) :: specCol (s2done ++ rest) [] r1
  | [], s2done => by simp [levLoop]
  | ch :: rest, s2done => by
    have hx : specLev [] (s2done ++ [ch]) = s2done.length + 1 := by
      simp [specLev_nil_left]
    have step := nextColAux_spec ch s2done r1 []
    rw [hx] at step
    have ih := levLoop_spec r1 rest (s2done ++ [ch])
    rw [hx] at ih
    simp only [List.length_append, List.length_cons, List.length_nil] at ih
    simp only [levLoop, List.headD_cons, List.tail_cons, step]
    rw [ih]
    simp [List.append_assoc]

/-- The initial column (before any of `s2` is consumed) is `0, 1, 2, …`. -/
lemma specCol_nil_start : ∀ (rs u : List Char),
    specCol [] u rs = List.range' (u.length + 1) rs.length
  | [], u => by simp [specCol]
  | r :: rs, u => by
    have ih := specCol_nil_start rs (u ++ [r])
    simp only [List.length_append, List.length_cons, List.length_nil] at ih
    simp only [specCol, specLev_nil_right, List.length_append, List.length_cons,
      List.length_nil, List.range', ih]

/-- Reading the last entry of the specification column. -/
lemma specCol_getD (s2 : List Char) :
    ∀ (rs u : List Char) (k : ℕ), k + 1 = rs.length →
      (specCol s2 u rs).getD k 0 = specLev (u ++ rs) s2
  | [], _, _, h => by simp at h
  | r :: rs, u, 0, h => by
    have hrs : rs = [] := by
      cases rs with
      | nil => rfl
      | cons _ _ => simp at h
    subst hrs
    simp [specCol]
  | r :: rs, u, k + 1, h => by
    have hk : k + 1 = rs.length := by simpa using h
    have ih := specCol_getD s2 rs (u ++ [r]) k hk
    simpa [specCol, List.append_assoc] using ih

/-- `levenshteinDistance` computes the classic Levenshtein distance over
code points. -/
theorem levenshteinDistance_eq_specLev (s1 s2 : List Char) :
    levenshteinDistance s1 s2 = specLev s1 s2 := by
  unfold levenshteinDistance
  have hinit : List.range (s1.length + 1) = specLev [] [] :: specCol [] [] s1 := by
    rw [List.range_eq_range']
    have h0 : specLev [] ([] : List Char) = 0 := by simp [specLev_nil_left]
    rw [specCol_nil_start s1 []]
    simp [h0, List.range']
  have hloop := levLoop_spec s1 s2 []
  simp only [List.length_nil, Nat.zero_add, List.nil_append] at hloop
  rw [hinit, hloop]
  cases s1 with
  | nil => simp [specCol, specLev_nil_left]
  | cons r rs =>
    have hg := specCol_getD s2 (r :: rs) [] rs.length (by simp)
    simp only [List.nil_append] at hg
    simpa [List.getD_cons_succ] using hg

/-! ## Byte lengths -/

lemma goUtf8Size_pos (c : Char) : 0 < goUtf8Size c := by
  unfold goUtf8Size; split_ifs <;> omega

lemma length_le_byteLen : ∀ s : List Char, s.length ≤ byteLen s
  | [] => le_refl 0
  | c :: s => by
    have ih := length_le_byteLen s
    have hc := goUtf8Size_pos c
    simp only [byteLen, List.map_cons, List.sum_cons, List.length_cons]
    simp only [byteLen] at ih
    omega

lemma byteLen_pos (s : List Char) (h : s ≠ []) : 0 < byteLen s := by
  cases s with
  | nil => exact absurd rfl h
  | cons c s =>
    have hc := goUtf8Size_pos c
    simp only [byteLen, List.map_cons, List.sum_cons]
    omega

/-- The distance computed by `levenshteinDistance` never exceeds the
larger byte length of the two strings. -/
lemma levenshteinDistance_le_byteMax (s1 s2 : List Char) :
    levenshteinDistance s1 s2 ≤ goMax2 (byteLen s1) (byteLen s2) := by
  rw [levenshteinDistance_eq_specLev, goMax2_eq]
  exact specLev_le s1 s2 _
    (le_trans (length_le_byteLen s1) (le_max_left _ _))
    (le_trans (length_le_byteLen s2) (le_max_right _ _))

/-- Go's trailing clamp `if similarity > 1 { similarity = 1 }` is a
minimum with 1. -/
lemma clamp_eq_min (q : ℚ) : (if q > 1 then (1 : ℚ) else q) = min q 1 := by
  split_ifs with h
  · exact (min_eq_right (le_of_lt h)).symm
  · exact (min_eq_left (not_lt.mp h)).symm

/-! ## C5 -/

/-- C5 (corrected): for normalized-unequal, normalized-non-empty inputs,
`stringSimilarity` is `1 - d / L` — `d` the classic Levenshtein distance
over code points, `L` the larger **byte** length (Go's `len`) of the two
normalized strings, not the code-point length — plus the 0.1 common-word
bonus when it applies, clamped at 1. -/
theorem C5_base_similarity_amended (s1 s2 : List Char)
    (hne : normalizeString s1 ≠ normalizeString s2)
    (h1 : normalizeString s1 ≠ []) (h2 : normalizeString s2 ≠ []) :
    stringSimilarity s1 s2 =
      min ((1 - (specLev (normalizeString s1) (normalizeString s2) : ℚ) /
            ((max (byteLen (normalizeString s1)) (byteLen (normalizeString s2)) : ℕ) : ℚ)) +
          (if containsCommonWords (normalizeString s1) (normalizeString s2)
           then 1/10 else 0)) 1 := by
  have hmax : goMax2 (byteLen (normalizeString s1)) (byteLen (normalizeString s2)) ≠ 0 := by
    have := byteLen_pos _ h1
    rw [goMax2_eq]
    omega
  unfold stringSimilarity
  rw [if_neg hne]
  rw [if_neg (by simp [h1, h2])]
  rw [if_neg hmax]
  rw [levenshteinDistance_eq_specLev, goMax2_eq]
  split_ifs with hb
  · rw [clamp_eq_min]
  · rw [clamp_eq_min]
    norm_num

/-- Counterexample to C5 as stated: on the normalized one-letter strings
`é` and `a` the code divides by the byte length 2 of `é`, not its
code-point length 1: the claimed code-point formula yields 0 while
`stringSimilarity` returns 1/2 (no bonus applies). -/
theorem C5_counterexample :
    normalizeString "é".toList = "é".toList ∧
      normalizeString "a".toList = "a".toList ∧
      specLev "é".toList "a".toList = 1 ∧
      containsCommonWords "é".toList "a".toList = false ∧
      (1 : ℚ) - (specLev "é".toList "a".toList : ℚ) /
          ((max ("é".toList.length) ("a".toList.length) : ℕ) : ℚ) = 0 ∧
      stringSimilarity "é".toList "a".toList = 1/2 := by
  have hs : specLev "é".toList "a".toList = 1 := by
    rw [← levenshteinDistance_eq_specLev]; decide
  refine ⟨by decide, by decide, hs, by decide, ?_, by decide⟩
  rw [hs]
  norm_num

/-- Witness for C5 on `cats` / `cat`: distance 1, byte length 4, no
bonus, score 3/4. -/
theorem C5_base_similarity_amended_witness :
    normalizeString "cats".toList ≠ normalizeString "cat".toList ∧
      normalizeString "cats".toList ≠ [] ∧
      normalizeString "cat".toList ≠ [] ∧
      stringSimilarity "cats".toList "cat".toList =
        min ((1 - (specLev (normalizeString "cats".toList) (normalizeString "cat".toList) : ℚ) /
              ((max (byteLen (normalizeString "cats".toList))
                  (byteLen (normalizeString "cat".toList)) : ℕ) : ℚ)) +
            (if containsCommonWords (normalizeString "cats".toList)
                (normalizeString "cat".toList) then 1/10 else 0)) 1 :=
  ⟨by decide, by decide, by decide,
   C5_base_similarity_amended "cats".toList "cat".toList (by decide) (by decide) (by decide)⟩

/-! ## C6 -/

/-- `stringSimilarity` always lands in `[0, 1]`. -/
lemma stringSimilarity_mem (s1 s2 : List Char) :
    0 ≤ stringSimilarity s1 s2 ∧ stringSimilarity s1 s2 ≤ 1 := by
  simp only [stringSimilarity]
  split_ifs with heq hemp hmax hb hc1 hc2
  · norm_num
  · norm_num
  · norm_num
  · -- bonus applied, clamped
    norm_num
  · -- bonus applied, not clamped: value is 1 - d/L + 1/10 ≤ 1 by ¬(· > 1)
    have hd := levenshteinDistance_le_byteMax (normalizeString s1) (normalizeString s2)
    have hL : (0 : ℚ) <
        (goMax2 (byteLen (normalizeString s1)) (byteLen (normalizeString s2)) : ℚ) := by
      exact_mod_cast Nat.pos_of_ne_zero hmax
    have hdiv : (levenshteinDistance (normalizeString s1) (normalizeString s2) : ℚ) /
        (goMax2 (byteLen (normalizeString s1)) (byteLen (normalizeString s2)) : ℚ) ≤ 1 :=
      div_le_one_of_le (by exact_mod_cast hd) (le_of_lt hL)
    constructor
    · linarith
    · exact not_lt.mp hc1
  · -- no bonus, clamped
    norm_num
  · -- no bonus, not clamped: value is 1 - d/L
    have hL : (0 : ℚ) <
        (goMax2 (byteLen (normalizeString s1)) (byteLen (normalizeString s2)) : ℚ) := by
      exact_mod_cast Nat.pos_of_ne_zero hmax
    have hdiv : (levenshteinDistance (normalizeString s1) (normalizeString s2) : ℚ) /
        (goMax2 (byteLen (normalizeString s1)) (byteLen (normalizeString s2)) : ℚ) ≤ 1 :=
      div_le_one_of_le
        (by exact_mod_cast levenshteinDistance_le_byteMax _ _) (le_of_lt hL)
    have hdiv0 : (0 : ℚ) ≤
        (levenshteinDistance (normalizeString s1) (normalizeString s2) : ℚ) /
          (goMax2 (byteLen (normalizeString s1)) (byteLen (normalizeString s2)) : ℚ) := by
      positivity
    constructor
    · linarith
    · linarith

/-- C6: the composite score always lies in `[0, 1]`: each sub-score is in
`[0, 1]` (the pre-bonus base is non-negative because the distance is at
most the larger byte length, and the 0.1 bonus is clamped at 1 before
weighting), and the 0.4/0.4/0.2-weighted sum of values in `[0, 1]` stays
in `[0, 1]`. -/
theorem C6_score_bounds (e1 e2 : Email) :
    0 ≤ calculateEmailSimilarity e1 e2 ∧ calculateEmailSimilarity e1 e2 ≤ 1 := by
  unfold calculateEmailSimilarity
  have hsub := stringSimilarity_mem e1.Subject e2.Subject
  have hsend : 0 ≤ (match e1.From, e2.From with
      | f1 :: _, f2 :: _ => stringSimilarity f1.Email f2.Email
      | _, _ => (0 : ℚ)) ∧
      (match e1.From, e2.From with
      | f1 :: _, f2 :: _ => stringSimilarity f1.Email f2.Email
      | _, _ => (0 : ℚ)) ≤ 1 := by
    cases e1.From with
    | nil => cases e2.From <;> norm_num
    | cons f1 fs1 =>
      cases e2.From with
      | nil => norm_num
      | cons f2 fs2 => exact stringSimilarity_mem f1.Email f2.Email
  have hbody : 0 ≤ (if extractEmailBody e1 ≠ [] && extractEmailBody e2 ≠ [] then
        stringSimilarity (extractEmailBody e1) (extractEmailBody e2) else (0 : ℚ)) ∧
      (if extractEmailBody e1 ≠ [] && extractEmailBody e2 ≠ [] then
        stringSimilarity (extractEmailBody e1) (extractEmailBody e2) else (0 : ℚ)) ≤ 1 := by
    split_ifs with h
    · exact stringSimilarity_mem _ _
    · norm_num
  constructor
  · have := hsub.1; have := hsend.1; have := hbody.1
    positivity
  · have h1 := hsub.2; have h2 := hsend.2; have h3 := hbody.2
    have g1 := hsub.1; have g2 := hsend.1; have g3 := hbody.1
    nlinarith

/-! ## Generic helper lemmas -/

/-- A string compared with itself scores 1 (the equal-normalization
branch of `stringSimilarity`). -/
lemma stringSimilarity_self (s : List Char) : stringSimilarity s s = 1 := by
  simp [stringSimilarity]

/-- The scan loop of `FindSimilarToEmail` is a filter of the input, in
input order. -/
lemma findSimilarLoop_eq_filter (target : Email) (t : GoFloat) (l : List Email) :
    findSimilarLoop target t l =
      l.filter fun c =>
        decide (c.ID ≠ target.ID) && fge (calculateEmailSimilarity target c) t := by
  induction l with
  | nil => rfl
  | cons c rest ih =>
    by_cases h : c.ID = target.ID
    · simp [findSimilarLoop, h, ih]
    · by_cases h2 : fge (calculateEmailSimilarity target c) t = true
      · simp [findSimilarLoop, h, h2, ih]
      · simp [findSimilarLoop, h, h2, ih]

/-! ## C8 -/

/-- C8: for every target, collection and threshold (any rational, or
NaN), `FindSimilarToEmail` returns the target itself first, followed by
exactly the records `c` of the collection with `c.ID ≠ target.ID` whose
score with the target satisfies Go's `>=` against the threshold, in input
order.  In particular the result is non-empty and starts with the
target. -/
theorem C8_target_first (target : Email) (emails : List Email) (t : GoFloat) :
    FindSimilarToEmail target emails t =
      target :: emails.filter fun c =>
        decide (c.ID ≠ target.ID) && fge (calculateEmailSimilarity target c) t := by
  simp [FindSimilarToEmail, findSimilarLoop_eq_filter]

/-! ## C10 -/

/-- C10: `FindSimilarEmails` has no error path: the empty (nil)
collection yields the empty result, and so does any collection in which
the grouping pass forms no group of size at least 2. -/
theorem C10_graceful_empty (t : GoFloat) :
    FindSimilarEmails [] t = [] ∧
      ∀ emails : List Email,
        groupSimilarEmails emails t = [] → FindSimilarEmails emails t = [] := by
  refine ⟨rfl, ?_⟩
  intro emails h
  cases emails with
  | nil => rfl
  | cons e rest => simp [FindSimilarEmails, h]

/-- Witness for C10 at the empty collection and at a singleton collection
(which forms no group). -/
theorem C10_graceful_empty_witness :
    FindSimilarEmails [] (some (1/2)) = [] ∧
      FindSimilarEmails [bodylessEmail] (some (1/2)) = [] :=
  ⟨(C10_graceful_empty (some (1/2))).1,
   (C10_graceful_empty (some (1/2))).2 [bodylessEmail] (by decide)⟩

/-! ## C2 -/

/-- C2 (corrected): a record compared with itself scores exactly 1
**provided** it has at least one sender address and a non-empty extracted
body; the subject term needs no hypothesis because equal subjects hit the
equal-normalization branch. -/
theorem C2_reflexivity_amended (r : Email) (h1 : r.From ≠ [])
    (h2 : extractEmailBody r ≠ []) :
    calculateEmailSimilarity r r = 1 := by
  unfold calculateEmailSimilarity
  cases hf : r.From with
  | nil => exact absurd hf h1
  | cons f fs =>
    simp [hf, stringSimilarity_self, h2]
    norm_num

/-- Counterexample to C2 as stated: `bodylessEmail` has non-empty
normalized subject and sender strings but no body, and its self-score is
0.8, not 1.0. -/
theorem C2_counterexample :
    bodylessEmail.From ≠ [] ∧
      normalizeString bodylessEmail.Subject ≠ [] ∧
      normalizeString (bodylessEmail.From.headD ⟨[]⟩).Email ≠ [] ∧
      calculateEmailSimilarity bodylessEmail bodylessEmail = 4/5 ∧
      calculateEmailSimilarity bodylessEmail bodylessEmail ≠ 1 := by
  decide

/-- Witness for C2: a record with sender and body scores exactly 1
against itself. -/
theorem C2_reflexivity_amended_witness :
    bodiedEmail.From ≠ [] ∧ extractEmailBody bodiedEmail ≠ [] ∧
      calculateEmailSimilarity bodiedEmail bodiedEmail = 1 :=
  ⟨by decide, by decide,
   C2_reflexivity_amended bodiedEmail (by decide) (by decide)⟩

/-! ## C1 (counterexample) -/

/-- Counterexample to C1 as stated: the common-word bonus counts the
duplicated token `aaa` twice in one direction and once in the other, so
both `stringSimilarity` and `calculateEmailSimilarity` are asymmetric on
these inputs (37/70 versus 3/7, and 37/175 versus 30/175). -/
theorem C1_counterexample :
    stringSimilarity "aaa aaa".toList "aaa".toList ≠
        stringSimilarity "aaa".toList "aaa aaa".toList ∧
      calculateEmailSimilarity dupTokenA dupTokenB ≠
        calculateEmailSimilarity dupTokenB dupTokenA := by
  decide

/-! ## C3 (counterexample) -/

/-- Counterexample to C3 as stated: `twoBodyEmailSwapped` is the same
record as `twoBodyEmail` — same identifier, subject, sender, preview and
the same `BodyValues` map contents, merely iterated in the other order —
yet the two scores against `bodyPartnerEmail` differ (1 versus 4/5),
because `extractEmailBody` takes the first non-empty value in iteration
order. -/
theorem C3_counterexample :
    twoBodyEmailSwapped.BodyValues.Perm twoBodyEmail.BodyValues ∧
      twoBodyEmailSwapped.ID = twoBodyEmail.ID ∧
      twoBodyEmailSwapped.Subject = twoBodyEmail.Subject ∧
      twoBodyEmailSwapped.From = twoBodyEmail.From ∧
      twoBodyEmailSwapped.Preview = twoBodyEmail.Preview ∧
      calculateEmailSimilarity twoBodyEmail bodyPartnerEmail = 1 ∧
      calculateEmailSimilarity twoBodyEmailSwapped bodyPartnerEmail = 4/5 := by
  refine ⟨List.Perm.swap _ _ _, rfl, rfl, rfl, rfl, by decide, by decide⟩

/-! ## C9 (counterexample) -/

set_option maxRecDepth 1000000 in
/-- Counterexample to the restoration half of C9: `score(monoA, monoB) =
4/5`; at threshold 3/4 the whole-collection output is the group
`[a, b]` containing the pair, but at the lower threshold 3/5 — still at
or below their score — the pair is gone: `monoA` is captured by the
earlier anchor `monoC` and the output is `[c, a]`. -/
theorem C9_counterexample :
    calculateEmailSimilarity monoA monoB = 4/5 ∧
      (3/5 : ℚ) ≤ 4/5 ∧
      (FindSimilarEmails [monoC, monoA, monoB] (some (3/4))).map Email.ID = ["a", "b"] ∧
      (FindSimilarEmails [monoC, monoA, monoB] (some (3/5))).map Email.ID = ["c", "a"] := by
  decide

/-! ## C4 (counterexample) -/

set_option maxRecDepth 1000000 in
/-- Counterexample to C4 as stated: on `groups13` the grouping pass forms
13 groups, in formation order sized `[2,3,3,2,…,2]`; the greatest member
count 3 is attained first by the second-formed group (`b1 b2 b3`), but
`FindSimilarEmails` returns the third-formed group (`c1 c2 c3`) — Go's
`sort.Slice` is not stable and its partitioning step moves the later tied
group to the front. -/
theorem C4_counterexample :
    (groupSimilarEmails groups13 (some (1/2))).map (fun g => g.Emails.map Email.ID) =
        [["a1", "a2"], ["b1", "b2", "b3"], ["c1", "c2", "c3"], ["d1", "d2"],
         ["e1", "e2"], ["f1", "f2"], ["g1", "g2"], ["h1", "h2"], ["i1", "i2"],
         ["j1", "j2"], ["k1", "k2"], ["l1", "l2"], ["m1", "m2"]] ∧
      (FindSimilarEmails groups13 (some (1/2))).map Email.ID = ["c1", "c2", "c3"] ∧
      (FindSimilarEmails groups13 (some (1/2))).map Email.ID ≠ ["b1", "b2", "b3"] := by
  decide

/-! ## C1 (amended symmetry) -/

/-- The common-word count of `containsCommonWords` equals the cardinality
of the set of tokens of at least 3 bytes shared by the two token lists,
provided the first list's long tokens are pairwise distinct. -/
lemma count_eq_card_inter (u v : List (List Char))
    (hu : (u.filter fun w => decide (3 ≤ byteLen w)).Nodup) :
    (u.countP fun w => !(byteLen w < 3) && decide (w ∈ v)) =
      ((u.filter fun w => decide (3 ≤ byteLen w)).toFinset ∩
        (v.filter fun w => decide (3 ≤ byteLen w)).toFinset).card := by
  rw [List.countP_eq_length_filter]
  have e1 : u.filter (fun w => !(byteLen w < 3) && decide (w ∈ v)) =
      (u.filter fun w => decide (3 ≤ byteLen w)).filter
        (fun w => decide (w ∈ v.filter fun w => decide (3 ≤ byteLen w))) := by
    rw [List.filter_filter]
    apply List.filter_congr
    intro w _
    by_cases hw : 3 ≤ byteLen w <;> by_cases hv : w ∈ v <;>
      simp [hw, hv, List.mem_filter, Nat.not_lt, Nat.lt_of_not_le, Nat.not_le]
  rw [e1]
  have hnodup : ((u.filter fun w => decide (3 ≤ byteLen w)).filter
      (fun w => decide (w ∈ v.filter fun w => decide (3 ≤ byteLen w)))).Nodup :=
    hu.filter _
  rw [← List.toFinset_card_of_nodup hnodup, List.toFinset_filter]
  congr 1
  ext w
  simp [List.mem_toFinset, Finset.mem_filter, Finset.mem_inter]

/-- Under the distinct-long-token hypotheses the common-word bonus fires
symmetrically. -/
lemma containsCommonWords_comm (s1 s2 : List Char)
    (h1 : ((goFields s1).filter fun w => decide (3 ≤ byteLen w)).Nodup)
    (h2 : ((goFields s2).filter fun w => decide (3 ≤ byteLen w)).Nodup) :
    containsCommonWords s1 s2 = containsCommonWords s2 s1 := by
  simp only [containsCommonWords]
  rw [count_eq_card_inter _ _ h1, count_eq_card_inter _ _ h2, Finset.inter_comm]

/-- `stringSimilarity` is symmetric when both normalized strings have
pairwise-distinct long tokens (every other ingredient — equality test,
emptiness test, Levenshtein distance and byte-length maximum — is
unconditionally symmetric). -/
lemma stringSimilarity_symm (s1 s2 : List Char)
    (h1 : tokensOK s1) (h2 : tokensOK s2) :
    stringSimilarity s1 s2 = stringSimilarity s2 s1 := by
  unfold tokensOK at h1 h2
  simp only [stringSimilarity]
  by_cases heq : normalizeString s1 = normalizeString s2
  · simp [heq]
  · have heq' : ¬ normalizeString s2 = normalizeString s1 := fun h => heq h.symm
    rw [if_neg heq, if_neg heq']
    by_cases he1 : normalizeString s1 = []
    · by_cases he2 : normalizeString s2 = []
      · exact absurd (he1.trans he2.symm) heq
      · simp [he1, he2]
    · by_cases he2 : normalizeString s2 = []
      · simp [he1, he2]
      · have hc1 : (decide (normalizeString s1 = []) || decide (normalizeString s2 = [])) = false := by
          simp [he1, he2]
        have hc2 : (decide (normalizeString s2 = []) || decide (normalizeString s1 = [])) = false := by
          simp [he1, he2]
        simp only [hc1, hc2, Bool.false_eq_true, if_false]
        rw [levenshteinDistance_eq_specLev, levenshteinDistance_eq_specLev,
          specLev_comm (normalizeString s1) (normalizeString s2),
          goMax2_eq, goMax2_eq,
          Nat.max_comm (byteLen (normalizeString s1)) (byteLen (normalizeString s2)),
          containsCommonWords_comm (normalizeString s1) (normalizeString s2) h1 h2]

/-- C1 (corrected): the composite score is symmetric **provided** every
compared string (subject, primary sender address, extracted body) has
pairwise-distinct normalized tokens of at least 3 bytes — the condition
under which the common-word bonus, whose duplicate-token counting is
one-directional, agrees in both directions. -/
theorem C1_symmetry_amended (a b : Email)
    (ha1 : tokensOK a.Subject) (hb1 : tokensOK b.Subject)
    (ha2 : ∀ f ∈ a.From.head?, tokensOK f.Email)
    (hb2 : ∀ f ∈ b.From.head?, tokensOK f.Email)
    (ha3 : tokensOK (extractEmailBody a)) (hb3 : tokensOK (extractEmailBody b)) :
    calculateEmailSimilarity a b = calculateEmailSimilarity b a := by
  simp only [calculateEmailSimilarity]
  have hsub := stringSimilarity_symm a.Subject b.Subject ha1 hb1
  have hsend : (match a.From, b.From with
      | f1 :: _, f2 :: _ => stringSimilarity f1.Email f2.Email
      | _, _ => (0 : ℚ)) =
      (match b.From, a.From with
      | f1 :: _, f2 :: _ => stringSimilarity f1.Email f2.Email
      | _, _ => (0 : ℚ)) := by
    cases hfa : a.From with
    | nil => cases b.From <;> simp
    | cons f1 fs1 =>
      cases hfb : b.From with
      | nil => simp
      | cons f2 fs2 =>
        exact stringSimilarity_symm f1.Email f2.Email
          (ha2 f1 (by rw [hfa]; rfl))
          (hb2 f2 (by rw [hfb]; rfl))
  have hbody : (if extractEmailBody a ≠ [] && extractEmailBody b ≠ [] then
        stringSimilarity (extractEmailBody a) (extractEmailBody b) else (0 : ℚ)) =
      (if extractEmailBody b ≠ [] && extractEmailBody a ≠ [] then
        stringSimilarity (extractEmailBody b) (extractEmailBody a) else (0 : ℚ)) := by
    by_cases hba : extractEmailBody a = [] <;> by_cases hbb : extractEmailBody b = [] <;>
      simp [hba, hbb, stringSimilarity_symm _ _ ha3 hb3]
  rw [hsub, hsend, hbody]

/-- Witness for C1 on two records with pairwise-distinct tokens in every
compared field. -/
theorem C1_symmetry_amended_witness :
    tokensOK symA.Subject ∧ tokensOK symB.Subject ∧
      tokensOK (extractEmailBody symA) ∧ tokensOK (extractEmailBody symB) ∧
      calculateEmailSimilarity symA symB = calculateEmailSimilarity symB symA :=
  ⟨by decide, by decide, by decide, by decide,
   C1_symmetry_amended symA symB (by decide) (by decide)
     (by decide) (by decide)
     (by decide) (by decide)⟩

/-! ## C3 (amended determinism) -/

/-- `find?` returns the head of the filtered list. -/
lemma find?_eq_head?_filter {α : Type} (q : α → Bool) :
    ∀ l : List α, l.find? q = (l.filter q).head?
  | [] => rfl
  | a :: l => by
    rw [List.filter_cons, List.find?_cons]
    cases h : q a
    · simpa using find?_eq_head?_filter q l
    · simp

/-- Permuted lists of length at most 1 are equal. -/
lemma perm_eq_of_length_le_one {α : Type} (l1 l2 : List α)
    (h : l1.Perm l2) (hlen : l2.length ≤ 1) : l1 = l2 := by
  cases l2 with
  | nil => simpa using h.eq_nil
  | cons a t =>
    cases t with
    | nil => exact List.perm_singleton.mp h
    | cons b t2 => simp at hlen

/-- Body extraction is independent of the map iteration order whenever
the preview is non-empty or at most one body value is non-empty. -/
lemma extractEmailBody_perm (e : Email) (bv : List (List Char))
    (hperm : bv.Perm e.BodyValues)
    (hdet : e.Preview ≠ [] ∨ (e.BodyValues.filter fun v => !v.isEmpty).length ≤ 1) :
    extractEmailBody { e with BodyValues := bv } = extractEmailBody e := by
  unfold extractEmailBody
  by_cases hp : e.Preview = []
  · rcases hdet with hPrev | hlen
    · exact absurd hp hPrev
    · have hfil : (bv.filter fun v => !v.isEmpty).Perm
          (e.BodyValues.filter fun v => !v.isEmpty) := hperm.filter _
      have heq : bv.filter (fun v => !v.isEmpty) =
          e.BodyValues.filter fun v => !v.isEmpty :=
        perm_eq_of_length_le_one _ _ hfil hlen
      simp only [hp]
      rw [find?_eq_head?_filter, find?_eq_head?_filter]
      simp only [heq]
  · simp [hp]

/-- C3 (corrected): the score engine is deterministic **given** a fixed
iteration order of each record's `BodyValues` map, and for a record whose
preview is non-empty or which has at most one non-empty body value the
score does not depend on that order at all: permuting the `BodyValues`
list leaves `calculateEmailSimilarity` unchanged against any partner, on
either side. -/
theorem C3_determinism_amended (e p : Email) (bv : List (List Char))
    (hperm : bv.Perm e.BodyValues)
    (hdet : e.Preview ≠ [] ∨ (e.BodyValues.filter fun v => !v.isEmpty).length ≤ 1) :
    calculateEmailSimilarity { e with BodyValues := bv } p =
        calculateEmailSimilarity e p ∧
      calculateEmailSimilarity p { e with BodyValues := bv } =
        calculateEmailSimilarity p e := by
  have hx := extractEmailBody_perm e bv hperm hdet
  constructor <;> simp only [calculateEmailSimilarity, hx]

/-- Witness for C3: a record with one non-empty body value keeps its
score against `bodylessEmail` under the other iteration order. -/
theorem C3_determinism_amended_witness :
    permBV.Perm permEmail.BodyValues ∧
      (calculateEmailSimilarity { permEmail with BodyValues := permBV } bodylessEmail =
          calculateEmailSimilarity permEmail bodylessEmail ∧
        calculateEmailSimilarity bodylessEmail { permEmail with BodyValues := permBV } =
          calculateEmailSimilarity bodylessEmail permEmail) :=
  ⟨List.Perm.swap _ _ _,
   C3_determinism_amended permEmail bodylessEmail permBV (List.Perm.swap _ _ _)
     (Or.inr (by decide))⟩

/-! ## C7 and the anchored-group invariant -/

/-- The inner scan of the grouping pass: the processed set only grows,
every added member was unprocessed, is marked afterwards and meets the
threshold against the anchor, and no member is added twice. -/
lemma innerScan_spec (anchor : Email) (t : GoFloat) :
    ∀ (l : List Email) (p : List String),
      (∀ x ∈ p, x ∈ (innerScan anchor t l p).2) ∧
      (∀ e ∈ (innerScan anchor t l p).1,
        e.ID ∉ p ∧ e.ID ∈ (innerScan anchor t l p).2 ∧
          fge (calculateEmailSimilarity anchor e) t = true) ∧
      ((innerScan anchor t l p).1.map Email.ID).Nodup
  | [], p => by simp [innerScan]
  | c :: rest, p => by
    by_cases h1 : c.ID ∈ p
    · simpa [innerScan, h1] using innerScan_spec anchor t rest p
    · by_cases h2 : fge (calculateEmailSimilarity anchor c) t = true
      · rcases hres : innerScan anchor t rest (c.ID :: p) with ⟨ms, p2⟩
        have ih := innerScan_spec anchor t rest (c.ID :: p)
        rw [hres] at ih
        obtain ⟨ih1, ih2, ih3⟩ := ih
        simp only [innerScan, if_neg h1, if_pos h2, hres]
        refine ⟨?_, ?_, ?_⟩
        · intro x hx
          exact ih1 x (List.mem_cons_of_mem _ hx)
        · intro e he
          rcases List.mem_cons.mp he with rfl | he2
          · exact ⟨h1, ih1 e.ID (List.mem_cons_self _ _), h2⟩
          · obtain ⟨hnp, hp2, hf⟩ := ih2 e he2
            exact ⟨fun hmem => hnp (List.mem_cons_of_mem _ hmem), hp2, hf⟩
        · simp only [List.map_cons, List.nodup_cons]
          refine ⟨?_, ih3⟩
          intro hmem
          obtain ⟨e, he, heid⟩ := List.mem_map.mp hmem
          obtain ⟨hnp, _, _⟩ := ih2 e he
          exact hnp (heid ▸ List.mem_cons_self _ _)
      · simpa [innerScan, if_neg h1, h2] using innerScan_spec anchor t rest p

/-- The outer grouping loop: the identifiers across all emitted groups
are pairwise distinct and disjoint from the incoming processed set, and
every emitted group is its anchor followed by members that meet the
threshold against that anchor. -/
lemma groupLoop_spec (t : GoFloat) :
    ∀ (l : List Email) (p : List String),
      ((((groupLoop t l p).map EmailGroup.Emails).flatten).map Email.ID).Nodup ∧
      (∀ x ∈ (((groupLoop t l p).map EmailGroup.Emails).flatten).map Email.ID, x ∉ p) ∧
      (∀ g ∈ groupLoop t l p, ∃ anchor rest, g.Emails = anchor :: rest ∧
        ∀ c ∈ rest, fge (calculateEmailSimilarity anchor c) t = true)
  | [], p => by simp [groupLoop]
  | e :: rest, p => by
    by_cases h1 : e.ID ∈ p
    · simpa [groupLoop, h1] using groupLoop_spec t rest p
    · rcases hres : innerScan e t rest (e.ID :: p) with ⟨ms, p2⟩
      have isp := innerScan_spec e t rest (e.ID :: p)
      rw [hres] at isp
      obtain ⟨is1, is2, is3⟩ := isp
      have ih := groupLoop_spec t rest p2
      obtain ⟨ih1, ih2, ih3⟩ := ih
      have hsub : ∀ x, x ∈ p → x ∈ p2 := fun x hx => is1 x (List.mem_cons_of_mem _ hx)
      simp only [groupLoop, if_neg h1, hres]
      by_cases hlen : 1 < (e :: ms).length
      · rw [if_pos hlen]
        simp only [List.map_cons, List.flatten_cons, List.map_append, List.nodup_cons]
        refine ⟨?_, ?_, ?_⟩
        · rw [List.nodup_append]
          refine ⟨?_, ⟨ih1, ?_⟩⟩
          · simp only [List.nodup_cons]
            refine ⟨?_, is3⟩
            intro hmem
            obtain ⟨x, hx, hxid⟩ := List.mem_map.mp hmem
            obtain ⟨hnp, _, _⟩ := is2 x hx
            exact hnp (hxid ▸ List.mem_cons_self _ _)
          · intro x hx1 hx2
            have hxp2 : x ∈ p2 := by
              rcases List.mem_cons.mp hx1 with rfl | hx3
              · exact is1 _ (List.mem_cons_self _ _)
              · obtain ⟨y, hy, hyid⟩ := List.mem_map.mp hx3
                exact hyid ▸ (is2 y hy).2.1
            exact ih2 x hx2 hxp2
        · intro x hx
          rcases List.mem_append.mp hx with hx1 | hx2
          · rcases List.mem_cons.mp hx1 with rfl | hx3
            · exact h1
            · obtain ⟨y, hy, hyid⟩ := List.mem_map.mp hx3
              obtain ⟨hnp, _, _⟩ := is2 y hy
              intro hxp
              exact hnp (hyid ▸ List.mem_cons_of_mem _ hxp)
          · intro hxp
            exact ih2 x hx2 (hsub x hxp)
        · intro g hg
          rcases List.mem_cons.mp hg with rfl | hg2
          · exact ⟨e, ms, rfl, fun c hc => (is2 c hc).2.2⟩
          · exact ih3 g hg2
      · rw [if_neg hlen]
        refine ⟨ih1, ?_, ih3⟩
        intro x hx hxp
        exact ih2 x hx (hsub x hxp)

/-- C7: for any collection with pairwise-distinct identifiers and any
threshold, the groups of one `groupSimilarEmails` call are pairwise
disjoint and duplicate-free: no identifier — and hence no record —
appears twice across the concatenation of all formed groups. -/
theorem C7_groups_partition (emails : List Email) (t : GoFloat)
    (hids : (emails.map Email.ID).Nodup) :
    ((((groupSimilarEmails emails t).map EmailGroup.Emails).flatten).map Email.ID).Nodup ∧
      (((groupSimilarEmails emails t).map EmailGroup.Emails).flatten).Nodup := by
  have h := (groupLoop_spec t emails []).1
  exact ⟨h, h.of_map⟩

/-- Witness for C7 on a 4-record collection forming two groups. -/
theorem C7_groups_partition_witness :
    (tiedPair.map Email.ID).Nodup ∧
      ((((groupSimilarEmails tiedPair (some (1/2))).map
          EmailGroup.Emails).flatten).map Email.ID).Nodup ∧
      (((groupSimilarEmails tiedPair (some (1/2))).map
          EmailGroup.Emails).flatten).Nodup :=
  ⟨by decide, C7_groups_partition tiedPair (some (1/2)) (by decide)⟩

/-! ## C9 (amended threshold monotonicity) -/

/-- C9 (corrected): (a) a record `b` is admitted to a group on the
strength of its score with the group's anchor `a` only when that score
meets the threshold, so any threshold strictly above `score(a, b)`
excludes `b` from the members of a group anchored at `a`; (b) the same
holds in single-target matching — with a threshold above `score(a, b)`
the only way `b` appears in the output of `FindSimilarToEmail a` is as
the target itself; and (c) lowering the threshold to at most
`score(a, b)` restores `b` in the single-target output.  (Lowering the
threshold does **not** always restore the pair in the whole-collection
output: an earlier anchor can capture one of the two records first.) -/
theorem C9_threshold_monotonicity_amended :
    (∀ (emails : List Email) (t : ℚ) (g : EmailGroup) (a b : Email) (rest : List Email),
        g ∈ groupSimilarEmails emails (some t) → g.Emails = a :: rest →
        calculateEmailSimilarity a b < t → b ∉ rest) ∧
      (∀ (a : Email) (emails : List Email) (t : ℚ) (b : Email),
        calculateEmailSimilarity a b < t →
        b ∈ FindSimilarToEmail a emails (some t) → b = a) ∧
      (∀ (a : Email) (emails : List Email) (t : ℚ) (b : Email),
        b ∈ emails → b.ID ≠ a.ID → t ≤ calculateEmailSimilarity a b →
        b ∈ FindSimilarToEmail a emails (some t)) := by
  refine ⟨?_, ?_, ?_⟩
  · intro emails t g a b rest hg hEmails hlt hb
    obtain ⟨anchor, rest2, hEq, hall⟩ := (groupLoop_spec (some t) emails []).2.2 g hg
    rw [hEmails] at hEq
    injection hEq with h1 h2
    subst h1
    subst h2
    have := hall b hb
    simp only [fge, decide_eq_true_eq] at this
    exact absurd this (not_le.mpr hlt)
  · intro a emails t b hlt hmem
    unfold FindSimilarToEmail at hmem
    rcases List.mem_cons.mp hmem with rfl | htail
    · rfl
    · rw [findSimilarLoop_eq_filter] at htail
      have := (List.mem_filter.mp htail).2
      simp only [Bool.and_eq_true, fge, decide_eq_true_eq] at this
      exact absurd this.2 (not_le.mpr hlt)
  · intro a emails t b hmem hid hle
    unfold FindSimilarToEmail
    refine List.mem_cons_of_mem _ ?_
    rw [findSimilarLoop_eq_filter]
    refine List.mem_filter.mpr ⟨hmem, ?_⟩
    simp only [Bool.and_eq_true, fge, decide_eq_true_eq]
    exact ⟨hid, hle⟩

/-- Witness for C9, on the monotonicity records: above `score(monoA,
monoC) = 7/10` the record `monoC` is excluded from the group anchored at
`monoA` and from the matches of `monoA` (save as the target), and at
3/5 ≤ `score(monoA, monoB)` the record `monoB` is restored among the
matches of `monoA`. -/
theorem C9_threshold_monotonicity_amended_witness :
    monoC ∉ [monoB] ∧
      monoA = monoA ∧
      monoB ∈ FindSimilarToEmail monoA [monoC, monoA, monoB] (some (3/5)) :=
  ⟨C9_threshold_monotonicity_amended.1 [monoC, monoA, monoB] (3/4)
      ⟨[monoA, monoB], 4/5⟩ monoA monoC [monoB] (by decide) (by decide) (by decide),
    C9_threshold_monotonicity_amended.2.1 monoA [monoC, monoA, monoB] (3/2) monoA
      (by decide) (by decide),
    C9_threshold_monotonicity_amended.2.2 monoA [monoC, monoA, monoB] (3/5) monoB
      (by decide) (by decide) (by decide)⟩

/-! ## C4: `sort.Slice` is the identity when the comparison is
everywhere false, which is the all-tied case of the group sort -/

/-- With an everywhere-false comparison the inner insertion loop never
swaps. -/
lemma insInner_all_false (lt : α → α → Bool) (arr : Array α) (a : ℕ)
    (H : ∀ i j, i < arr.size → j < arr.size → lt (aget arr i) (aget arr j) = false) :
    ∀ i, i < arr.size → insInner lt a i arr = arr
  | 0, _ => rfl
  | j + 1, h => by
    simp [insInner, H (j + 1) j h (Nat.lt_of_succ_lt h)]

/-- With an everywhere-false comparison the outer insertion loop leaves
the array unchanged. -/
lemma insOuter_all_false (lt : α → α → Bool) (arr : Array α) (a b : ℕ)
    (H : ∀ i j, i < arr.size → j < arr.size → lt (aget arr i) (aget arr j) = false)
    (hb : b ≤ arr.size) :
    ∀ fuel i, insOuter lt a b i fuel arr = arr
  | 0, _ => rfl
  | fuel + 1, i => by
    simp only [insOuter]
    by_cases hib : i < b
    · rw [if_pos hib, insInner_all_false lt arr a H i (lt_of_lt_of_le hib hb)]
      exact insOuter_all_false lt arr a b H hb fuel (i + 1)
    · rw [if_neg hib]

/-- With an everywhere-false comparison `insertionSort_func` is the
identity. -/
lemma insertionSortGo_all_false (lt : α → α → Bool) (arr : Array α) (a b : ℕ)
    (H : ∀ i j, i < arr.size → j < arr.size → lt (aget arr i) (aget arr j) = false)
    (hb : b ≤ arr.size) : insertionSortGo lt arr a b = arr :=
  insOuter_all_false lt arr a b H hb b (a + 1)

/-- With an everywhere-false comparison the sortedness scan of
`partialInsertionSort_func` runs to the end of the range. -/
lemma scanSorted_all_false (lt : α → α → Bool) (arr : Array α) (b : ℕ)
    (H : ∀ i j, i < arr.size → j < arr.size → lt (aget arr i) (aget arr j) = false)
    (hb : b ≤ arr.size) :
    ∀ fuel i, i ≤ b → b - i < fuel → scanSorted lt arr b i fuel = b
  | 0, _, _, hf => absurd hf (Nat.not_lt_zero _)
  | fuel + 1, i, hi, _ => by
    by_cases hib : i < b
    · have h1 : i < arr.size := lt_of_lt_of_le hib hb
      have h2 : i - 1 < arr.size := lt_of_le_of_lt (Nat.sub_le i 1) h1
      have hrec := scanSorted_all_false lt arr b H hb fuel (i + 1) hib (by omega)
      simp [scanSorted, H i (i - 1) h1 h2, hib, hrec]
    · have hieq : i = b := Nat.le_antisymm hi (Nat.not_lt.mp hib)
      subst hieq
      simp [scanSorted]

/-- With an everywhere-false comparison the step loop of
`partialInsertionSort_func` reports success immediately. -/
lemma partialInsLoop_all_false (lt : α → α → Bool) (arr : Array α) (a b : ℕ)
    (H : ∀ i j, i < arr.size → j < arr.size → lt (aget arr i) (aget arr j) = false)
    (hb : b ≤ arr.size) (steps i : ℕ) (hi : i ≤ b) (h0 : steps ≠ 0) :
    partialInsLoop lt a b i steps arr = (arr, true) := by
  cases steps with
  | zero => exact absurd rfl h0
  | succ s =>
    have hscan := scanSorted_all_false lt arr b H hb (b + 1) i hi (by omega)
    simp [partialInsLoop, hscan]

/-- With an everywhere-false comparison `partialInsertionSort_func`
returns the array unchanged and reports the range sorted. -/
lemma partialInsertionSortGo_all_false (lt : α → α → Bool) (arr : Array α) (a b : ℕ)
    (H : ∀ i j, i < arr.size → j < arr.size → lt (aget arr i) (aget arr j) = false)
    (hab : a + 1 ≤ b) (hb : b ≤ arr.size) :
    partialInsertionSortGo lt arr a b = (arr, true) := by
  show partialInsLoop lt a b (a + 1) 5 arr = (arr, true)
  exact partialInsLoop_all_false lt arr a b H hb 5 (a + 1) hab (by omega)

/-- With an everywhere-false comparison `order2_func` keeps its indices
and counts no swap. -/
lemma order2Go_all_false (lt : α → α → Bool) (arr : Array α)
    (H : ∀ i j, i < arr.size → j < arr.size → lt (aget arr i) (aget arr j) = false)
    (a b s : ℕ) (ha : a < arr.size) (hb : b < arr.size) :
    order2Go lt arr a b s = (a, b, s) := by
  simp [order2Go, H b a hb ha]

/-- With an everywhere-false comparison `median_func` returns its middle
index and counts no swap. -/
lemma medianGo_all_false (lt : α → α → Bool) (arr : Array α)
    (H : ∀ i j, i < arr.size → j < arr.size → lt (aget arr i) (aget arr j) = false)
    (a b c s : ℕ) (ha : a < arr.size) (hb : b < arr.size) (hc : c < arr.size) :
    medianGo lt arr a b c s = (b, s) := by
  simp [medianGo, order2Go_all_false lt arr H a b s ha hb,
    order2Go_all_false lt arr H b c s hb hc]

/-- With an everywhere-false comparison `medianAdjacent_func` returns its
centre index and counts no swap. -/
lemma medianAdjacentGo_all_false (lt : α → α → Bool) (arr : Array α)
    (H : ∀ i j, i < arr.size → j < arr.size → lt (aget arr i) (aget arr j) = false)
    (a s : ℕ) (h1 : a - 1 < arr.size) (h2 : a < arr.size) (h3 : a + 1 < arr.size) :
    medianAdjacentGo lt arr a s = (a, s) := by
  simp [medianAdjacentGo, medianGo_all_false lt arr H (a - 1) a (a + 1) s h1 h2 h3]

/-- With an everywhere-false comparison `choosePivot_func` counts no
swaps and reports an increasing range. -/
lemma choosePivotGo_all_false (lt : α → α → Bool) (arr : Array α)
    (H : ∀ i j, i < arr.size → j < arr.size → lt (aget arr i) (aget arr j) = false)
    (a b : ℕ) (h8 : 8 ≤ b - a) (hb : b ≤ arr.size) :
    ∃ p, choosePivotGo lt arr a b = (p, SortHint.increasing) := by
  refine ⟨a + (b - a) / 4 * 2, ?_⟩
  have md := medianGo_all_false lt arr H (a + (b - a) / 4) (a + (b - a) / 4 * 2)
    (a + (b - a) / 4 * 3) 0 (by omega) (by omega) (by omega)
  by_cases h50 : 50 ≤ b - a
  · have m1 := medianAdjacentGo_all_false lt arr H (a + (b - a) / 4) 0
      (by omega) (by omega) (by omega)
    have m2 := medianAdjacentGo_all_false lt arr H (a + (b - a) / 4 * 2) 0
      (by omega) (by omega) (by omega)
    have m3 := medianAdjacentGo_all_false lt arr H (a + (b - a) / 4 * 3) 0
      (by omega) (by omega) (by omega)
    simp [choosePivotGo, h8, h50, m1, m2, m3, md]
  · simp [choosePivotGo, h8, h50, md]

/-- With an everywhere-false comparison one round of `pdqsort_func`
returns the array unchanged, hence so does `sort.Slice`. -/
lemma sortSliceGo_all_false (lt : α → α → Bool) (arr : Array α)
    (H : ∀ i j, i < arr.size → j < arr.size → lt (aget arr i) (aget arr j) = false) :
    sortSliceGo lt arr = arr := by
  show pdqsortLoop lt (arr.size + 1) arr 0 arr.size (goBitsLen arr.size) true true = arr
  by_cases h12 : arr.size ≤ 12
  · have hins := insertionSortGo_all_false lt arr 0 arr.size H le_rfl
    simp [pdqsortLoop, h12, hins]
  · have hlim : ¬ goBitsLen arr.size = 0 := by
      simp only [goBitsLen]
      split
      · omega
      · exact Nat.succ_ne_zero _
    obtain ⟨p, hcp⟩ := choosePivotGo_all_false lt arr H 0 arr.size (by omega) le_rfl
    have hpart := partialInsertionSortGo_all_false lt arr 0 arr.size H (by omega) le_rfl
    simp [pdqsortLoop, h12, hlim, hcp, hpart]

/-- Reading a list converted to an array is reading the list. -/
lemma aget_toArray (l : List α) (i : ℕ) : aget l.toArray i = l.getD i default := by
  by_cases h : i < l.length
  · rw [List.getD_eq_getElem l default h]
    simp [aget, Array.getD, h]
  · rw [List.getD_eq_getElem?_getD, List.getElem?_eq_none (by omega)]
    simp only [aget, Array.getD]
    rw [dif_neg (show ¬ i < l.toArray.size from h)]
    rfl

/-- An in-range `getD` read is a member of the list. -/
lemma getD_mem_of_lt (l : List α) (i : ℕ) (h : i < l.length) :
    l.getD i default ∈ l := by
  rw [List.getD_eq_getElem l default h]
  exact List.getElem_mem h

/-- C4 (corrected): `FindSimilarEmails` sorts the formed groups with the
non-stable `sort.Slice` and returns the first group of the sorted list.
When **all** formed groups have the same member count the comparison is
everywhere false, the pdqsort leaves the list unchanged, and the
earliest-formed group is returned — but ties at the maximum are not in
general broken by formation order (see the counterexample, where the
third-formed of thirteen groups is returned). -/
theorem C4_tiebreak_amended (emails : List Email) (t : GoFloat)
    (g : EmailGroup) (gs : List EmailGroup)
    (hg : groupSimilarEmails emails t = g :: gs)
    (htied : ∀ g2 ∈ groupSimilarEmails emails t, g2.Emails.length = g.Emails.length) :
    FindSimilarEmails emails t = g.Emails := by
  rw [hg] at htied
  have hne : ¬ emails.length = 0 := by
    intro h
    rw [List.length_eq_zero.mp h] at hg
    simp [groupSimilarEmails, groupLoop] at hg
  simp only [FindSimilarEmails, hg]
  rw [if_neg hne]
  rw [if_neg (show ¬ (g :: gs).length = 0 by simp)]
  have Hf : ∀ i j, i < ((g :: gs).toArray).size → j < ((g :: gs).toArray).size →
      (fun g1 g2 : EmailGroup => decide (g2.Emails.length < g1.Emails.length))
        (aget (g :: gs).toArray i) (aget (g :: gs).toArray j) = false := by
    intro i j hi hj
    have hi2 : i < (g :: gs).length := hi
    have hj2 : j < (g :: gs).length := hj
    have mi : aget (g :: gs).toArray i ∈ g :: gs := by
      rw [aget_toArray]
      exact getD_mem_of_lt _ _ hi2
    have mj : aget (g :: gs).toArray j ∈ g :: gs := by
      rw [aget_toArray]
      exact getD_mem_of_lt _ _ hj2
    simp only [decide_eq_false_iff_not]
    rw [htied _ mi, htied _ mj]
    exact lt_irrefl _
  rw [sortSliceGo_all_false _ _ Hf, aget_toArray]
  rfl

/-- Witness for C4 on a collection forming two groups tied at two
members each: the earliest-formed group is returned. -/
theorem C4_tiebreak_amended_witness :
    FindSimilarEmails tiedPair (some (1/2)) = [tinyEmail "a1" "a", tinyEmail "a2" "a"] :=
  C4_tiebreak_amended tiedPair (some (1/2))
    ⟨[tinyEmail "a1" "a", tinyEmail "a2" "a"], 4/5⟩
    [⟨[tinyEmail "b1" "b", tinyEmail "b2" "b"], 4/5⟩]
    (by decide) (by decide)

end MailboxZero
